import Mathlib

/-!
# Verification of the slide-set assembly engine (`slideset.go`)

Shallow embedding of the slide-set data model and operations of the
zettelstore presenter (`presenter/slideset.go`), together with proofs of
the specified properties.

Modelling conventions:
* `sxpf` s-expression objects become the inductive type `Sx`; the sxpf
  nil list is `Sx.list []` (in sxpf the empty list is the nil pointer,
  and `IsNil` is the nil-pointer test).
* Go heap pointers to `slide` values become indices into an arena
  (`SlideSet.slides`); pointer equality is index equality.
* Go maps (`setSlide`, `setImage`) become association lists with
  first-match lookup and replace-or-append insertion, the `visited` map
  becomes the list of marked identifiers in marking order (membership is
  the map lookup; `mark` is called at most once per identifier, so the
  list also records how often an identifier was marked).
* The worklist stack: the head of the Lean list is the top of the
  stack.  Go pushes at the end of a slice and pops from the end, so the
  slice end corresponds to the list head; `initCollection` pushes the
  sequence identifiers in reverse, which makes the initial Lean stack
  exactly `slideZids`.
* The external Content Source (`sGetZettelFunc` together with
  `sz.GetMetaContent`, and `getZettelContentFunc`) is modelled from the
  spec as finite stores: `FetchContent(id) -> (metadata, content, error)`
  becomes a lookup in a `ZStore`, `FetchRaw(id) -> (bytes, error)` a
  lookup in an `IStore`.  A lookup miss covers both a fetch error and
  the malformed (nil meta/content) case; both make every caller skip
  the zettel in the same way.
-/

namespace ZPres

/-- S-expression objects: model of `sxpf.Object` (symbols, strings,
numbers and lists).  `Sx.list []` is the sxpf nil list. -/
inductive Sx where
  | sym (name : String)
  | str (s : String)
  | num (n : Int)
  | list (elems : List Sx)

/-- Zettel identifiers; `api.ZettelID` is a string type. -/
abbrev ZettelID := String

/-- Model of `api.InvalidZID`, the empty identifier. -/
def InvalidZID : ZettelID := ""

/-- Model of `api.ZettelID.IsValid` from the client library: an
identifier is valid iff it consists of exactly 14 digits. -/
def ZettelID.isValid (zid : ZettelID) : Bool :=
  zid.length == 14 && zid.toList.all Char.isDigit

/-- Modelled from the spec: `sz.Meta`, a map from string keys to values
that are either plain strings or rich-text lists. -/
abbrev Meta := List (String × Sx)

/-- First-match association-list lookup: model of a Go map read. -/
def alookup {β : Type} : List (String × β) → String → Option β
  | [], _ => none
  | (k, v) :: rest, key => if k = key then some v else alookup rest key

/-- Replace-or-append association-list insertion: model of a Go map
write `m[key] = v`. -/
def ainsert {β : Type} : List (String × β) → String → β → List (String × β)
  | [], key, v => [(key, v)]
  | (k, w) :: rest, key, v =>
      if k = key then (k, v) :: rest else (k, w) :: ainsert rest key v

/-- Modelled from the spec: `Meta.GetString` returns the value of a
string-valued metadata key, and `""` otherwise. -/
def Meta.getString (m : Meta) (key : String) : String :=
  match alookup m key with
  | some (.str s) => s
  | _ => ""

/-- Modelled from the spec: `Meta.GetList` returns the value of a
list-valued metadata key, and the nil list (`none`) otherwise. -/
def Meta.getList (m : Meta) (key : String) : Option Sx :=
  match alookup m key with
  | some (.list l) => some (.list l)
  | _ => none

/-- Constants for zettel metadata keys and values (`slideset.go` and the
`api` library). -/
def KeySlideRole : String := "slide-role"

def KeySlideTitle : String := "slide-title"

def KeyTitle : String := "title"

def KeyLang : String := "lang"

def KeyVisibility : String := "visibility"

def ValueVisibilityPublic : String := "public"

def SlideRoleHandout : String := "handout"

def SlideRoleShow : String := "show"

def SyntaxMermaid : String := "mermaid"

/-- Symbol names of `sz.ZettelSymbols`; only their distinctness matters
for the embedded code. -/
def symBlock : String := "BLOCK"

def symInline : String := "INLINE"

def symText : String := "TEXT"

def symSpace : String := "SPACE"

def symVerbatimEval : String := "VERBATIM-EVAL"

def symLinkZettel : String := "LINK-ZETTEL"

def symEmbed : String := "EMBED"

def symRefStateZettel : String := "ZETTEL"

def symHeading : String := "HEADING"

/-- `makeTitleList`: wraps a plain string as an inline list. -/
def makeTitleList (s : String) : Sx :=
  .list [.sym symInline, .list [.sym symText, .str s]]

/-- `getSlideTitle`: fallback chain slide-title (list) → slide-title
(string) → title (list) → title (string) → nil. -/
def getSlideTitle (m : Meta) : Option Sx :=
  match m.getList KeySlideTitle with
  | some title => some title
  | none =>
    if m.getString KeySlideTitle ≠ "" then some (makeTitleList (m.getString KeySlideTitle))
    else match m.getList KeyTitle with
      | some title => some title
      | none =>
        if m.getString KeyTitle ≠ "" then some (makeTitleList (m.getString KeyTitle))
        else none

/-- `getSlideTitleZid`: `getSlideTitle` with the identifier as final
fallback. -/
def getSlideTitleZid (m : Meta) (zid : ZettelID) : Sx :=
  match getSlideTitle m with
  | some title => title
  | none => makeTitleList zid

/-- `getZettelTitleZid`: generic title with the identifier as
fallback. -/
def getZettelTitleZid (m : Meta) (zid : ZettelID) : Sx :=
  match m.getList KeyTitle with
  | some title => title
  | none => .list [.sym symText, .str zid]

/-- `slide`: one slide, wrapping one retrieved zettel. -/
structure Slide where
  zid : ZettelID
  title : Sx
  lang : String
  role : String
  content : Sx

/-- `newSlide`: builds a slide from fetched metadata and content. -/
def newSlide (zid : ZettelID) (sxMeta : Meta) (sxContent : Sx) : Slide :=
  { zid := zid
    title := getSlideTitleZid sxMeta zid
    lang := sxMeta.getString KeyLang
    role := sxMeta.getString KeySlideRole
    content := sxContent }

/-- `slide.MakeChild`: a child slide shares zid/lang/role with its
parent but has its own title and content. -/
def Slide.MakeChild (sl : Slide) (sxTitle sxContent : Sx) : Slide :=
  { zid := sl.zid
    title := sxTitle
    lang := sl.lang
    role := sl.role
    content := sxContent }

/-- `slide.HasSlideRole`: an empty requested role matches everything,
an unset slide role matches everything, otherwise exact equality. -/
def Slide.HasSlideRole (sl : Slide) (sr : String) : Bool :=
  if sr = "" then true
  else if sl.role = "" then true
  else sl.role = sr

/-- `image`: a cached image payload (`data` models the raw bytes). -/
structure Image where
  imgSyntax : String
  data : String

/-- Default slide used for out-of-range arena reads (never reached from
well-formed states). -/
def defaultSlide : Slide :=
  { zid := "", title := .list [], lang := "", role := "", content := .list [] }

/-- `slideSet`: the sequence of slides shown.  `slides` is the arena
modelling the Go heap; `seqSlide` and `setSlide` hold arena indices in
place of `*slide` pointers. -/
structure SlideSet where
  zid : ZettelID
  sxMeta : Meta
  slides : List Slide
  seqSlide : List Nat
  setSlide : List (ZettelID × Nat)
  setImage : List (ZettelID × Image)
  isCompleted : Bool
  hasMermaid : Bool

/-- `newSlideSetMeta`. -/
def newSlideSetMeta (zid : ZettelID) (sxMeta : Meta) : SlideSet :=
  { zid := zid, sxMeta := sxMeta, slides := [], seqSlide := [],
    setSlide := [], setImage := [], isCompleted := false, hasMermaid := false }

/-- `newSlideSet`: returns nothing when the metadata is empty. -/
def newSlideSet (zid : ZettelID) (sxMeta : Meta) : Option SlideSet :=
  if sxMeta.length = 0 then none else some (newSlideSetMeta zid sxMeta)

/-- Arena read through a slide pointer. -/
def SlideSet.slideAt (s : SlideSet) (i : Nat) : Slide :=
  s.slides.getD i defaultSlide

/-- `slideSet.GetSlide` as a map lookup, returning the arena index (the
pointer); `none` models the nil result. -/
def SlideSet.getSlideIdx (s : SlideSet) (zid : ZettelID) : Option Nat :=
  alookup s.setSlide zid

/-- `slideSet.SlideZids`: identifiers of the slide sequence in order. -/
def SlideSet.slideZids (s : SlideSet) : List ZettelID :=
  s.seqSlide.map (fun i => (s.slideAt i).zid)

/-- `slideSet.HasImage`. -/
def SlideSet.HasImage (s : SlideSet) (zid : ZettelID) : Bool :=
  (alookup s.setImage zid).isSome

/-- `slideSet.AddImage`. -/
def SlideSet.AddImage (s : SlideSet) (zid : ZettelID) (syn data : String) : SlideSet :=
  { s with setImage := ainsert s.setImage zid ⟨syn, data⟩ }

/-- A zettel as delivered by the Content Source: metadata plus content
tree (spec interface `FetchContent`). -/
structure Zettel where
  meta : Meta
  content : Sx

/-- Modelled from the spec: the `sGetZettelFunc` fetch function composed
with `sz.GetMetaContent`, as a finite store of zettel. -/
abbrev ZStore := List (ZettelID × Zettel)

/-- Modelled from the spec: the `getZettelContentFunc` raw fetch
function (`FetchRaw`), as a finite store of raw payloads. -/
abbrev IStore := List (ZettelID × String)

/-- `slideSet.AddSlide`: re-append the already known slide pointer, or
fetch, build and register a new slide; fetch failures leave the set
unchanged. -/
def SlideSet.AddSlide (s : SlideSet) (zid : ZettelID) (sGetZettel : ZStore) : SlideSet :=
  match alookup s.setSlide zid with
  | some idx => { s with seqSlide := s.seqSlide ++ [idx] }
  | none =>
    match alookup sGetZettel zid with
    | none => s
    | some ztl =>
      let idx := s.slides.length
      { s with
        slides := s.slides ++ [newSlide zid ztl.meta ztl.content]
        seqSlide := s.seqSlide ++ [idx]
        setSlide := ainsert s.setSlide zid idx }

/-- `slideSet.AdditionalSlide`: build a slide from already fetched data
and register it. -/
def SlideSet.AdditionalSlide (s : SlideSet) (zid : ZettelID) (sxMeta : Meta)
    (sxContent : Sx) : SlideSet :=
  let idx := s.slides.length
  { s with
    slides := s.slides ++ [newSlide zid sxMeta sxContent]
    seqSlide := s.seqSlide ++ [idx]
    setSlide := ainsert s.setSlide zid idx }

end ZPres

namespace ZPres

/-- `collectEnv`: the state of the closure traversal (`Completion`).
`visited` is the marking map, kept as the list of marked identifiers in
marking order. -/
structure CollectEnv where
  s : SlideSet
  stack : List ZettelID
  visited : List ZettelID
  hasMermaid : Bool

/-- `collectEnv.initCollection`: seed the stack with the sequence
identifiers (Go pushes them in reverse, so its pop order is the list
order used here) and start with an empty visited map. -/
def initCollection (s : SlideSet) : CollectEnv :=
  { s := s, stack := s.slideZids, visited := [], hasMermaid := false }

/-- `collectEnv.mark`. -/
def CollectEnv.mark (env : CollectEnv) (zid : ZettelID) : CollectEnv :=
  { env with visited := zid :: env.visited }

/-- `collectEnv.isMarked`. -/
def CollectEnv.isMarked (env : CollectEnv) (zid : ZettelID) : Bool :=
  zid ∈ env.visited

/-- `collectEnv.visitZettel`: skip marked or already known zettel; fetch
the new one, drop it unless its visibility is public, otherwise append
it as an additional slide and push it. -/
def CollectEnv.visitZettel (zetStore : ZStore) (env : CollectEnv) (zid : ZettelID) :
    CollectEnv :=
  if env.isMarked zid ∨ (env.s.getSlideIdx zid).isSome then env
  else
    match alookup zetStore zid with
    | none => env
    | some ztl =>
      if ztl.meta.getString KeyVisibility ≠ ValueVisibilityPublic then env
      else
        { env with
          s := env.s.AdditionalSlide zid ztl.meta ztl.content
          stack := zid :: env.stack }

/-- `collectEnv.visitImage`: cache-hit embeds are skipped, otherwise the
raw payload is fetched and cached (fetch failure is dropped). -/
def CollectEnv.visitImage (rawStore : IStore) (env : CollectEnv) (zid : ZettelID)
    (syn : String) : CollectEnv :=
  if env.s.HasImage zid then env
  else
    match alookup rawStore zid with
    | none => env
    | some data => { env with s := env.s.AddImage zid syn data }

/-- Modelled from the spec: `sz.GetAttributes` followed by `Get("")`;
attribute pairs are modelled as two-element lists (key value). -/
def attrGet : List Sx → String → Option String
  | [], _ => none
  | .list [.str k, .str v] :: rest, key =>
      if k = key then some v else attrGet rest key
  | _ :: rest, key => attrGet rest key

/-- `hasMermaidAttribute`: the first argument is a list whose second
element is the attribute node; the empty-key attribute must be
`"mermaid"`.  `args` are the elements after the `VERBATIM-EVAL`
symbol. -/
def hasMermaidAttribute (args : List Sx) : Bool :=
  match args.head? with
  | some (.list lst) =>
    match (lst.drop 1).head? with
    | some (.list attr) => attrGet attr "" = some SyntaxMermaid
    | _ => false
  | _ => false

/-- The zettel identifier of a `LINK-ZETTEL` node: third element of the
node (`o.Tail().Tail().Car()`, here the second element of the argument
list after the symbol), which must be a string holding a valid
identifier. -/
def linkArg (t : List Sx) : Option ZettelID :=
  match (t.drop 1).head? with
  | some (.str zidVal) => if ZettelID.isValid zidVal then some zidVal else none
  | _ => none

/-- The identifier and syntax of an `EMBED` node: the reference is the
second element of the argument list, a list whose second element is a
`(ZETTEL zid)` reference; the syntax is the third element of the
argument list. -/
def embedArgs (t : List Sx) : Option (ZettelID × String) :=
  match (t.drop 1).head? with
  | some (.list qref) =>
    match (qref.drop 1).head? with
    | some (.list ref) =>
      match ref.head? with
      | some (.sym rs) =>
        if rs = symRefStateZettel then
          match (ref.drop 1).head? with
          | some (.str zidVal) =>
            if ZettelID.isValid zidVal then
              match (t.drop 2).head? with
              | some (.str syn) => some (zidVal, syn)
              | _ => none
            else none
          | _ => none
        else none
      | _ => none
    | _ => none
  | _ => none

/-- One switch step of `collectEnv.visitContent` for a symbol-headed
list element: text and space nodes are skipped, verbatim-eval nodes set
the mermaid flag, zettel links and embeds are visited, and any other
symbol starts a recursive walk, whose result is passed in as `recres`
(the recursion itself lives in `visitElems`). -/
def elemStep (rawStore : IStore) (zetStore : ZStore) (sname : String) (t : List Sx)
    (recres env : CollectEnv) : CollectEnv :=
  if sname = symText ∨ sname = symSpace then env
  else if sname = symVerbatimEval then
    if hasMermaidAttribute t then { env with hasMermaid := true } else env
  else if sname = symLinkZettel then
    match linkArg t with
    | some zid => CollectEnv.visitZettel zetStore env zid
    | none => env
  else if sname = symEmbed then
    match embedArgs t with
    | some (zid, syn) => CollectEnv.visitImage rawStore env zid syn
    | none => env
  else recres

/-- `collectEnv.visitContent`, fused with its loop body: walks the
elements of a content list, dispatching each symbol-headed list element
through `elemStep`; non-list elements (numbers, strings, bare symbols)
and lists without a leading symbol are ignored. -/
def visitElems (rawStore : IStore) (zetStore : ZStore) :
    List Sx → CollectEnv → CollectEnv
  | [], env => env
  | .list (.sym sname :: t) :: rest, env =>
    visitElems rawStore zetStore rest
      (elemStep rawStore zetStore sname t (visitElems rawStore zetStore t env) env)
  | .list (.list _ :: _) :: rest, env => visitElems rawStore zetStore rest env
  | .list (.str _ :: _) :: rest, env => visitElems rawStore zetStore rest env
  | .list (.num _ :: _) :: rest, env => visitElems rawStore zetStore rest env
  | .list [] :: rest, env => visitElems rawStore zetStore rest env
  | .sym _ :: rest, env => visitElems rawStore zetStore rest env
  | .str _ :: rest, env => visitElems rawStore zetStore rest env
  | .num _ :: rest, env => visitElems rawStore zetStore rest env
termination_by l _ => sizeOf l
decreasing_by
  all_goals simp
  all_goals omega

/-- `collectEnv.visitContent`: walk a content list, skipping its
leading `BLOCK` symbol; the nil list does nothing. -/
def visitContent (rawStore : IStore) (zetStore : ZStore) (content : Sx)
    (env : CollectEnv) : CollectEnv :=
  match content with
  | .list elems => visitElems rawStore zetStore (elems.drop 1) env
  | _ => env

end ZPres

namespace ZPres

/-- The distinct identifiers the zettel store can deliver. -/
def storeKeys (zetStore : ZStore) : List ZettelID :=
  (zetStore.map Prod.fst).dedup

/-- Store identifiers not yet registered in `setSlide`: every push done
by `visitZettel` removes one of them. -/
def remaining (zetStore : ZStore) (s : SlideSet) : Nat :=
  ((storeKeys zetStore).filter (fun z => (alookup s.setSlide z).isNone)).length

/-- Termination measure of the worklist loop: each iteration pops one
stack entry, and each push is paid for by a store identifier entering
`setSlide`. -/
def envMeasure (zetStore : ZStore) (env : CollectEnv) : Nat :=
  2 * remaining zetStore env.s + env.stack.length

theorem alookup_ainsert_self {β : Type} (m : List (String × β)) (k : String) (v : β) :
    alookup (ainsert m k v) k = some v := by
  induction m with
  | nil => simp [ainsert, alookup]
  | cons p rest ih =>
    obtain ⟨k', w⟩ := p
    by_cases h : k' = k
    · simp [ainsert, alookup, h]
    · simp [ainsert, alookup, h, ih]

theorem alookup_ainsert_ne {β : Type} (m : List (String × β)) (k k' : String) (v : β)
    (h : k' ≠ k) : alookup (ainsert m k v) k' = alookup m k' := by
  have hk : ¬ k = k' := fun hh => h (Eq.symm hh)
  induction m with
  | nil => simp [ainsert, alookup, hk]
  | cons p rest ih =>
    obtain ⟨k₀, w⟩ := p
    by_cases h0 : k₀ = k
    · subst h0
      simp [ainsert, alookup, hk]
    · simp [ainsert, alookup, h0, ih]

theorem mem_storeKeys_of_alookup {zetStore : ZStore} {z : ZettelID} {ztl : Zettel}
    (h : alookup zetStore z = some ztl) : z ∈ storeKeys zetStore := by
  rw [storeKeys, List.mem_dedup]
  induction zetStore with
  | nil => simp [alookup] at h
  | cons p rest ih =>
    obtain ⟨k, w⟩ := p
    by_cases hk : k = z
    · simp [hk]
    · simp [alookup, hk] at h
      simp [ih h]

theorem filter_length_succ {l : List ZettelID} {z : ZettelID}
    (p q : ZettelID → Bool) (hnd : l.Nodup) (hz : z ∈ l)
    (hp : p z = true) (hq : q z = false) (hother : ∀ y, y ≠ z → q y = p y) :
    (l.filter q).length + 1 = (l.filter p).length := by
  induction l with
  | nil => simp at hz
  | cons a rest ih =>
    have hnd' := (List.nodup_cons.mp hnd).2
    have hna := (List.nodup_cons.mp hnd).1
    rcases List.mem_cons.mp hz with heq | hmem
    · have hrest : ∀ y ∈ rest, q y = p y := by
        intro y hy
        refine hother y ?_
        intro hEq
        rw [hEq, heq] at hy
        exact hna hy
      have hfq : rest.filter q = rest.filter p := List.filter_congr hrest
      rw [← heq]
      simp [List.filter_cons, hp, hq, hfq]
    · have hne : a ≠ z := by
        intro hEq
        rw [hEq] at hna
        exact hna hmem
      have hqa : q a = p a := hother a hne
      cases hpa : p a with
      | true => simp [List.filter_cons, hpa, hqa, ih hnd' hmem]
      | false => simp [List.filter_cons, hpa, hqa, ih hnd' hmem]

theorem remaining_AdditionalSlide {zetStore : ZStore} {s : SlideSet} {zid : ZettelID}
    {ztl : Zettel} (hstore : alookup zetStore zid = some ztl)
    (hnew : alookup s.setSlide zid = none) (m : Meta) (c : Sx) :
    remaining zetStore (s.AdditionalSlide zid m c) + 1 = remaining zetStore s := by
  have hmem := mem_storeKeys_of_alookup hstore
  have hnd : (storeKeys zetStore).Nodup := List.nodup_dedup _
  refine filter_length_succ _ _ hnd hmem ?_ ?_ ?_
  · simp [hnew]
  · simp [SlideSet.AdditionalSlide, alookup_ainsert_self]
  · intro y hy
    simp [SlideSet.AdditionalSlide, alookup_ainsert_ne _ _ _ _ hy]

theorem envMeasure_visitZettel_le (zetStore : ZStore) (env : CollectEnv) (zid : ZettelID) :
    envMeasure zetStore (env.visitZettel zetStore zid) ≤ envMeasure zetStore env := by
  rw [CollectEnv.visitZettel]
  split
  · exact le_refl _
  · rename_i hguard
    split
    · exact le_refl _
    · rename_i ztl hstore
      split
      · exact le_refl _
      · have hnone : alookup env.s.setSlide zid = none := by
          rcases h : env.s.getSlideIdx zid with _ | i
          · exact h
          · exact absurd (Or.inr (by simp [h])) hguard
        have hrem := remaining_AdditionalSlide hstore hnone ztl.meta ztl.content
        simp only [envMeasure, List.length_cons]
        omega

theorem envMeasure_visitImage_eq (rawStore : IStore) (zetStore : ZStore)
    (env : CollectEnv) (zid : ZettelID) (syn : String) :
    envMeasure zetStore (env.visitImage rawStore zid syn) = envMeasure zetStore env := by
  rw [CollectEnv.visitImage]
  split
  · rfl
  · split
    · rfl
    · simp [envMeasure, remaining, SlideSet.AddImage]

end ZPres

namespace ZPres

/-- The measure does not grow across one element step: a push is always
paid for by a store identifier entering `setSlide`. -/
theorem envMeasure_elemStep_le (rawStore : IStore) (zetStore : ZStore)
    (sname : String) (t : List Sx) (recres env : CollectEnv)
    (hrec : envMeasure zetStore recres ≤ envMeasure zetStore env) :
    envMeasure zetStore (elemStep rawStore zetStore sname t recres env) ≤
      envMeasure zetStore env := by
  rw [elemStep]
  split_ifs
  · exact le_refl _
  · simp [envMeasure]
  · exact le_refl _
  · split
    · exact envMeasure_visitZettel_le zetStore env _
    · exact le_refl _
  · split
    · exact le_of_eq (envMeasure_visitImage_eq rawStore zetStore env _ _)
    · exact le_refl _
  · exact hrec

/-- The measure does not grow across a whole content walk. -/
theorem envMeasure_visitElems_le (rawStore : IStore) (zetStore : ZStore)
    (l : List Sx) (env : CollectEnv) :
    envMeasure zetStore (visitElems rawStore zetStore l env) ≤ envMeasure zetStore env := by
  induction l, env using visitElems.induct rawStore zetStore
  case case1 => rw [visitElems]
  case case2 sname t rest env iht ihrest =>
    rw [visitElems]
    exact le_trans ihrest
      (envMeasure_elemStep_le rawStore zetStore sname t _ env iht)
  all_goals rw [visitElems]
  all_goals assumption

/-- The measure does not grow across `visitContent`. -/
theorem envMeasure_visitContent_le (rawStore : IStore) (zetStore : ZStore)
    (content : Sx) (env : CollectEnv) :
    envMeasure zetStore (visitContent rawStore zetStore content env) ≤
      envMeasure zetStore env := by
  cases content with
  | sym s => exact le_refl _
  | str s => exact le_refl _
  | num n => exact le_refl _
  | list elems => exact envMeasure_visitElems_le rawStore zetStore (elems.drop 1) env

end ZPres

namespace ZPres

/-- Worklist loop of `slideSet.Completion`, with `collectEnv.pop` fused
in: pop the stack top; a visited identifier comes back as `InvalidZID`
and is skipped, `InvalidZID` itself is skipped, a missing slide is the
fatal invariant breach (Go `panic(zid)`, modelled as `none`), otherwise
the identifier is marked and its content walked. -/
def completionLoop (rawStore : IStore) (zetStore : ZStore) (env : CollectEnv) :
    Option CollectEnv :=
  match hstk : env.stack with
  | [] => some env
  | zid :: rest =>
    let env1 : CollectEnv := { env with stack := rest }
    if zid ∈ env.visited then completionLoop rawStore zetStore env1
    else if zid = InvalidZID then completionLoop rawStore zetStore env1
    else
      match env.s.getSlideIdx zid with
      | none => none
      | some idx =>
        let env2 := env1.mark zid
        let env3 := visitContent rawStore zetStore ((env1.s.slideAt idx).content) env2
        completionLoop rawStore zetStore env3
termination_by envMeasure zetStore env
decreasing_by
  · simp [envMeasure, hstk]
  · simp [envMeasure, hstk]
  · have h3 := envMeasure_visitContent_le rawStore zetStore
      ((env.s.slideAt idx).content)
      (CollectEnv.mark ⟨env.s, rest, env.visited, env.hasMermaid⟩ zid)
    simp only [envMeasure, CollectEnv.mark, hstk, List.length_cons] at h3 ⊢
    omega

/-- The traversal part of `slideSet.Completion`: seed the worklist and
run it, returning the final collection state. -/
def completionRun (rawStore : IStore) (zetStore : ZStore) (s : SlideSet) :
    Option CollectEnv :=
  completionLoop rawStore zetStore (initCollection s)

/-- `slideSet.Completion`: no-op when already completed; otherwise run
the closure traversal, store the mermaid flag and set the completed
flag.  `none` models the Go panic on the internal invariant breach. -/
def SlideSet.Completion (s : SlideSet) (rawStore : IStore) (zetStore : ZStore) :
    Option SlideSet :=
  if s.isCompleted then some s
  else
    match completionRun rawStore zetStore s with
    | none => none
    | some env =>
      some { env.s with hasMermaid := env.hasMermaid, isCompleted := true }

end ZPres

namespace ZPres

/-- Elements of a list object (`Sx.listElems`); non-lists have none. -/
def Sx.listElems : Sx → List Sx
  | .list es => es
  | _ => []

/-- The title of the next child at a level-1 heading: the heading
node's elements after the level are attributes, slug, fragment and the
inline title; `Head()` returns that fifth element as a list, nil
(`none`) when it is missing, not a list, or the nil list. -/
def nextTitleOf (bt : List Sx) : Option Sx :=
  match (bt.drop 4).head? with
  | some (.list (h :: hs)) => some (.list (h :: hs))
  | _ => none

/-- What the scan loop of `slideInfo.SplitChildren` does with one
block, following the Go branch order: a non-list, the nil list, a list
without a leading symbol, and a heading without a numeric level stop
the scan (`halt`, the Go `break`); a heading at level 1 whose
`Head()`-extracted inline title is non-nil closes the current child
(`cut`); every other block is appended to the accumulation (`keep`). -/
inductive BlockStep where
  | keep
  | cut (nextTitle : Sx)
  | halt

/-- The branch decision of the `SplitChildren` scan for one block. -/
def blockStep (b : Sx) : BlockStep :=
  match b with
  | .list (.sym s :: bt) =>
    if s = symHeading then
      match bt.head? with
      | some (.num lvl) =>
        if lvl = 1 then
          match nextTitleOf bt with
          | some nt => .cut nt
          | none => .keep
        else .keep
      | _ => .halt
    else .keep
  | _ => .halt

/-- The scan loop of `slideInfo.SplitChildren` over the content blocks:
a level-1 heading with a non-nil title closes the accumulated run as one
child; other well-formed blocks are accumulated; a malformed block stops
the scan (Go `break`), and the trailing accumulation always becomes a
final child. -/
def splitScan (sl : Slide) : List Sx → Sx → List Sx → List Slide
  | [], title, acc => [sl.MakeChild title (.list acc)]
  | b :: rest, title, acc =>
    match blockStep b with
    | .cut nt => sl.MakeChild title (.list acc) :: splitScan sl rest nt []
    | .keep => splitScan sl rest title (acc ++ [b])
    | .halt => [sl.MakeChild title (.list acc)]

/-- `slideInfo.SplitChildren` as the list of child slides (the linked
`oldest`/`youngest` chain in document order); the walk skips the leading
`BLOCK` symbol and starts with the parent's title and an empty
accumulation. -/
def Slide.SplitChildren (sl : Slide) : List Slide :=
  splitScan sl (sl.content.listElems.drop 1) sl.title []

/-- The number of scan steps of `splitScan` that close a child: the
qualifying level-1 headings encountered before any malformed block. -/
def countQ : List Sx → Nat
  | [] => 0
  | b :: rest =>
    match blockStep b with
    | .cut _ => countQ rest + 1
    | .keep => countQ rest
    | .halt => 0

/-- A split child in a rendered traversal (`slideInfo` in the
`oldest`/`youngest` chain), with its assigned numbers. -/
structure ChildInfo where
  Slide : ZPres.Slide
  SlideNo : Int
  Number : Int

/-- A top-level `slideInfo` node of the show traversal (the `prev` /
`next` document chain is the list order). -/
structure ShowInfo where
  Slide : ZPres.Slide
  SlideNo : Int
  Number : Int
  children : List ChildInfo

/-- A top-level `slideInfo` node of the handout traversal. -/
structure HandoutInfo where
  Slide : ZPres.Slide
  SlideNo : Int
  Number : Int
  children : List ChildInfo

/-- Child numbering in `slidesforShow`: the first child keeps the
parent's number, each later child the next one; `SlideNo` and `Number`
are both set. -/
def numberChildrenShow : List Slide → Int → List ChildInfo
  | [], _ => []
  | c :: cs, n => ⟨c, n, n⟩ :: numberChildrenShow cs (n + 1)

/-- Child numbering in `addChildrenForHandout`: like the show numbering
but only `SlideNo` is assigned (`Number` keeps the Go zero value). -/
def numberChildrenHandout : List Slide → Int → List ChildInfo
  | [], _ => []
  | c :: cs, n => ⟨c, n, 0⟩ :: numberChildrenHandout cs (n + 1)

/-- `slideSet.slidesforShow` (loop over the remaining slides with the
running counter): skip slides without the show role; each kept slide
becomes a node numbered by the counter, its children get consecutive
numbers starting at the parent's, and the counter continues after the
children. -/
def slidesforShowFrom : List Slide → Int → List ShowInfo
  | [], _ => []
  | sl :: rest, slideNo =>
    if sl.HasSlideRole SlideRoleShow then
      ⟨sl, slideNo, slideNo, numberChildrenShow sl.SplitChildren slideNo⟩ ::
        slidesforShowFrom rest (slideNo + (sl.SplitChildren).length)
    else slidesforShowFrom rest slideNo

/-- `slideSet.slidesforShow`. -/
def SlideSet.slidesforShow (s : SlideSet) (offset : Int) : List ShowInfo :=
  slidesforShowFrom (s.seqSlide.map s.slideAt) offset

/-- `slideSet.slidesForHandout` (loop with the document counter
`number` and the show counter `slideNo`): slides without the handout
role produce no node but, when they carry the show role, still advance
the show counter (`addChildrenForHandout` on a dropped node); kept
slides get the document number, and additionally the show number and
children when they also carry the show role. -/
def slidesForHandoutFrom : List Slide → Int → Int → List HandoutInfo
  | [], _, _ => []
  | sl :: rest, number, slideNo =>
    if sl.HasSlideRole SlideRoleHandout then
      if sl.HasSlideRole SlideRoleShow then
        ⟨sl, slideNo, number, numberChildrenHandout sl.SplitChildren slideNo⟩ ::
          slidesForHandoutFrom rest (number + 1) (slideNo + (sl.SplitChildren).length)
      else
        ⟨sl, 0, number, []⟩ :: slidesForHandoutFrom rest (number + 1) slideNo
    else
      if sl.HasSlideRole SlideRoleShow then
        slidesForHandoutFrom rest number (slideNo + (sl.SplitChildren).length)
      else slidesForHandoutFrom rest number slideNo

/-- `slideSet.slidesForHandout`. -/
def SlideSet.slidesForHandout (s : SlideSet) (offset : Int) : List HandoutInfo :=
  slidesForHandoutFrom (s.seqSlide.map s.slideAt) offset offset

/-- The head of the traversal returned by `slideSet.Slides`. -/
inductive SlidesResult where
  | show (infos : List ShowInfo)
  | handout (infos : List HandoutInfo)

/-- `slideSet.Slides`: dispatch on the role; any other role is the Go
`panic(role)`, modelled as `none`. -/
def SlideSet.Slides (s : SlideSet) (role : String) (offset : Int) : Option SlidesResult :=
  if role = SlideRoleShow then some (.show (s.slidesforShow offset))
  else if role = SlideRoleHandout then some (.handout (s.slidesForHandout offset))
  else none

/-- Backward search of `slideInfo.FindSlide`, on the document sequence
modelled as the list of slide identifiers with `prev` as position
decrement: starts at the receiver itself. -/
def findBackwardFrom (zids : List ZettelID) (zid : ZettelID) : Nat → Option Nat
  | 0 => if zids[0]? = some zid then some 0 else none
  | i + 1 =>
      if zids[i + 1]? = some zid then some (i + 1)
      else findBackwardFrom zids zid i

/-- Forward search of `slideInfo.FindSlide`, with `next` as position
increment. -/
def findForwardFrom (zids : List ZettelID) (zid : ZettelID) (i : Nat) : Option Nat :=
  if i < zids.length then
    if zids[i]? = some zid then some i else findForwardFrom zids zid (i + 1)
  else none
termination_by zids.length - i

/-- `slideInfo.FindSlide` called on the node at position `i`: search
backward (receiver included) first, then forward from the successor. -/
def FindSlide (zids : List ZettelID) (i : Nat) (zid : ZettelID) : Option Nat :=
  match findBackwardFrom zids zid i with
  | some j => some j
  | none => findForwardFrom zids zid (i + 1)

end ZPres

namespace ZPres

theorem filter_key_nil {β : Type} {m : List (String × β)} {k : String}
    (h : alookup m k = none) : m.filter (fun p => p.1 = k) = [] := by
  induction m with
  | nil => rfl
  | cons p rest ih =>
    obtain ⟨k0, v0⟩ := p
    by_cases hk : k0 = k
    · simp [alookup, hk] at h
    · simp only [alookup, if_neg hk] at h
      simp [List.filter_cons, hk, ih h]

theorem filter_key_ainsert_one {β : Type} {m : List (String × β)} {k : String} (v : β)
    (h : alookup m k = none) :
    ((ainsert m k v).filter (fun p => p.1 = k)).length = 1 := by
  induction m with
  | nil => simp [ainsert]
  | cons p rest ih =>
    obtain ⟨k0, v0⟩ := p
    by_cases hk : k0 = k
    · simp [alookup, hk] at h
    · simp only [alookup, if_neg hk] at h
      simp [ainsert, hk, List.filter_cons, ih h]

end ZPres

namespace ZPres

/-- C10: `Slides` does not return a traversal for any role other than
"show" or "handout" — including the empty string, which `HasSlideRole`
elsewhere treats as "matches everything" — but panics with the role
value (modelled as `none`). -/
theorem Slides_panics_on_unknown_role (s : SlideSet) (role : String) (offset : Int)
    (hshow : role ≠ SlideRoleShow) (hhandout : role ≠ SlideRoleHandout) :
    s.Slides role offset = none := by
  simp [SlideSet.Slides, hshow, hhandout]

/-- Witness for C10: the empty role on a fresh slide set panics. -/
theorem Slides_panics_on_unknown_role_witness :
    (newSlideSetMeta "" []).Slides "" 1 = none :=
  Slides_panics_on_unknown_role (newSlideSetMeta "" []) "" 1
    (by decide) (by decide)

/-- C2: `Completion` is idempotent: once a call has produced a
completed slide set, any further `Completion` call (with any fetch
functions) returns it unchanged, so `seqSlide`, `setImage` and
`hasMermaid` stay exactly as after the first call. -/
theorem Completion_idempotent (s : SlideSet) (raw1 raw2 : IStore) (zet1 zet2 : ZStore)
    (s' : SlideSet) (h : s.Completion raw1 zet1 = some s') :
    s'.Completion raw2 zet2 = some s' := by
  have hc : s'.isCompleted = true := by
    rw [SlideSet.Completion] at h
    by_cases hsc : s.isCompleted
    · rw [if_pos hsc] at h
      cases h
      exact hsc
    · rw [if_neg hsc] at h
      rcases hrun : completionRun raw1 zet1 s with _ | env
      · rw [hrun] at h
        cases h
      · rw [hrun] at h
        cases h
        rfl
  simp [SlideSet.Completion, hc]

/-- Witness for C2: completing an empty slide set once and then again. -/
theorem Completion_idempotent_witness :
    (newSlideSetMeta "" []).Completion [] [] =
      some { newSlideSetMeta "" [] with hasMermaid := false, isCompleted := true } ∧
    ({ newSlideSetMeta "" [] with hasMermaid := false, isCompleted := true} : SlideSet).Completion [] [] =
      some { newSlideSetMeta "" [] with hasMermaid := false, isCompleted := true } := by
  have h1 : (newSlideSetMeta "" []).Completion [] [] =
      some { newSlideSetMeta "" [] with hasMermaid := false, isCompleted := true } := by
    rw [SlideSet.Completion]
    rw [if_neg (by simp [newSlideSetMeta])]
    simp [completionRun, completionLoop, initCollection, SlideSet.slideZids,
      newSlideSetMeta]
  exact ⟨h1, Completion_idempotent _ [] [] [] [] _ h1⟩

end ZPres

namespace ZPres

/-- C5: `AddSlide` deduplication.  After a first successful
`AddSlide zid` on a set that did not know `zid` (the fetch returned a
zettel), a second `AddSlide zid` — with an arbitrary fetch store, which
is never consulted — appends a second `seqSlide` entry that is the same
pointer (arena index) as the first, allocates no new slide, and leaves
`setSlide` with exactly one entry for `zid`. -/
theorem AddSlide_dedup (s : SlideSet) (zid : ZettelID) (zst zst2 : ZStore) (ztl : Zettel)
    (hnew : alookup s.setSlide zid = none) (hfetch : alookup zst zid = some ztl) :
    (s.AddSlide zid zst).seqSlide = s.seqSlide ++ [s.slides.length] ∧
    ((s.AddSlide zid zst).AddSlide zid zst2).seqSlide =
      s.seqSlide ++ [s.slides.length, s.slides.length] ∧
    ((s.AddSlide zid zst).AddSlide zid zst2).slides = (s.AddSlide zid zst).slides ∧
    ((s.AddSlide zid zst).AddSlide zid zst2).setSlide = (s.AddSlide zid zst).setSlide ∧
    alookup ((s.AddSlide zid zst).AddSlide zid zst2).setSlide zid = some s.slides.length ∧
    (((s.AddSlide zid zst).AddSlide zid zst2).setSlide.filter
      (fun p => p.1 = zid)).length = 1 := by
  have h1 : s.AddSlide zid zst =
      { s with
        slides := s.slides ++ [newSlide zid ztl.meta ztl.content]
        seqSlide := s.seqSlide ++ [s.slides.length]
        setSlide := ainsert s.setSlide zid s.slides.length } := by
    rw [SlideSet.AddSlide, hnew, hfetch]
  have hlook : alookup (s.AddSlide zid zst).setSlide zid = some s.slides.length := by
    rw [h1]
    exact alookup_ainsert_self s.setSlide zid s.slides.length
  have h2 : (s.AddSlide zid zst).AddSlide zid zst2 =
      { s.AddSlide zid zst with
        seqSlide := (s.AddSlide zid zst).seqSlide ++ [s.slides.length] } := by
    rw [SlideSet.AddSlide, hlook]
  refine ⟨by rw [h1], ?_, by rw [h2], by rw [h2], ?_, ?_⟩
  · rw [h2, h1]
    simp
  · rw [h2, hlook]
  · rw [h2, h1]
    exact filter_key_ainsert_one s.slides.length hnew

/-- Witness for C5: adding the same zettel twice to a fresh set. -/
theorem AddSlide_dedup_witness :
    (((newSlideSetMeta "" []).AddSlide "1" [("1", ⟨[], .list []⟩)]).AddSlide "1"
      []).seqSlide = [0, 0] ∧
    ((((newSlideSetMeta "" []).AddSlide "1" [("1", ⟨[], .list []⟩)]).AddSlide "1"
      []).setSlide.filter (fun p => p.1 = "1")).length = 1 := by
  have h := AddSlide_dedup (newSlideSetMeta "" []) "1" [("1", ⟨[], .list []⟩)] []
    ⟨[], .list []⟩ (by simp [newSlideSetMeta, alookup]) (by simp [alookup])
  exact ⟨by simpa [newSlideSetMeta] using h.2.1, h.2.2.2.2.2⟩

/-- C7: `FindSlide` tie-break.  On a document sequence whose
identifiers match `zid` exactly at positions 2 and 5 (0-based), the
node at position 7 resolves `zid` to position 5: the search walks
backward via `prev` starting at the receiver itself, and only then
forward via `next`, so the nearest prior occurrence wins. -/
theorem FindSlide_backward_first (zids : List ZettelID) (zid : ZettelID)
    (hlen : 7 < zids.length)
    (hocc : ∀ i, zids[i]? = some zid ↔ (i = 2 ∨ i = 5)) :
    FindSlide zids 7 zid = some 5 := by
  have h7 : ¬ (zids[7]? = some zid) := by simp [hocc]
  have h6 : ¬ (zids[6]? = some zid) := by simp [hocc]
  have h5 : zids[5]? = some zid := (hocc 5).mpr (Or.inr rfl)
  rw [FindSlide]
  rw [show (7 : Nat) = 6 + 1 from rfl, findBackwardFrom, if_neg h7]
  rw [show (6 : Nat) = 5 + 1 from rfl, findBackwardFrom, if_neg h6]
  rw [show (5 : Nat) = 4 + 1 from rfl, findBackwardFrom, if_pos h5]

/-- Witness for C7: a concrete eight-slide sequence with `"z"` at
positions 2 and 5. -/
theorem FindSlide_backward_first_witness :
    FindSlide ["a", "b", "z", "c", "d", "z", "e", "f"] 7 "z" = some 5 := by
  refine FindSlide_backward_first _ "z" (by decide) ?_
  intro i
  rcases i with _|_|_|_|_|_|_|_|j
  · decide
  · decide
  · decide
  · decide
  · decide
  · decide
  · decide
  · decide
  · rw [List.getElem?_eq_none (by simp)]
    simp

end ZPres

namespace ZPres

/-- A block that `SplitChildren` closes a child at: a level-1 heading
whose `Head()`-extracted inline title is non-nil. -/
def isQualifyingHeading (b : Sx) : Bool :=
  match blockStep b with
  | .cut _ => true
  | _ => false

/-- A block the `SplitChildren` scan can pass without `break`ing. -/
def blockNoBreak (b : Sx) : Bool :=
  match blockStep b with
  | .halt => false
  | _ => true

/-- A slide whose content block list starts with a malformed (non-list)
block followed by a paragraph, and contains no heading at all. -/
def cxSlide : Slide :=
  { zid := "10000000000001"
    title := makeTitleList "parent"
    lang := ""
    role := ""
    content := .list [.sym symBlock, .str "bad",
      .list [.sym "PARA", .list [.sym symText, .str "x"]]] }

/-- Counterexample to C8 as stated: `cxSlide`'s content has no level-1
heading (no heading at all), yet its single split child does not carry
the parent's content — the malformed block makes the scan `break`, and
the paragraph after it is dropped, leaving the child with empty
content. -/
theorem SplitChildren_counterexample :
    ((cxSlide.content.listElems.drop 1).all (fun b => !(isQualifyingHeading b)) = true) ∧
    cxSlide.SplitChildren = [cxSlide.MakeChild cxSlide.title (Sx.list [])] ∧
    cxSlide.SplitChildren.map (fun c => c.content) ≠
      [Sx.list (cxSlide.content.listElems.drop 1)] ∧
    cxSlide.SplitChildren.map (fun c => c.content) ≠ [cxSlide.content] := by
  have h2 : cxSlide.SplitChildren = [cxSlide.MakeChild cxSlide.title (Sx.list [])] := rfl
  refine ⟨rfl, h2, ?_, ?_⟩
  · rw [h2]
    simp [cxSlide, Slide.MakeChild, Sx.listElems]
  · rw [h2]
    simp [cxSlide, Slide.MakeChild, Sx.listElems]

theorem splitScan_no_heading (sl : Slide) (bs : List Sx) :
    ∀ title acc,
      bs.all blockNoBreak = true →
      bs.all (fun b => !(isQualifyingHeading b)) = true →
      splitScan sl bs title acc = [sl.MakeChild title (.list (acc ++ bs))] := by
  induction bs with
  | nil =>
    intro title acc _ _
    simp [splitScan]
  | cons b rest ih =>
    intro title acc hwf hnoq
    rw [List.all_cons, Bool.and_eq_true] at hwf hnoq
    obtain ⟨hwfb, hwfr⟩ := hwf
    obtain ⟨hqb0, hqr⟩ := hnoq
    rcases hstep : blockStep b with _ | nt | _
    · have heq := ih title (acc ++ [b]) hwfr hqr
      simp [splitScan, hstep, heq]
    · rw [isQualifyingHeading, hstep] at hqb0
      simp at hqb0
    · rw [blockNoBreak, hstep] at hwfb
      cases hwfb

/-- C8 (amended): for every slide whose content blocks are all
well-formed (each a list with a leading symbol, headings carrying a
numeric level) and contain no level-1 heading with a non-nil inline
title, `SplitChildren` produces exactly one child (`oldest` equals
`youngest`), carrying the parent's original title and all of the
parent's content blocks, in order and untouched. -/
theorem SplitChildren_no_heading_single_child (sl : Slide)
    (hwf : (sl.content.listElems.drop 1).all blockNoBreak = true)
    (hnoq : (sl.content.listElems.drop 1).all (fun b => !(isQualifyingHeading b)) = true) :
    sl.SplitChildren =
      [sl.MakeChild sl.title (.list (sl.content.listElems.drop 1))] := by
  rw [Slide.SplitChildren, splitScan_no_heading sl _ sl.title [] hwf hnoq]
  simp

/-- Witness for the amended C8: a slide with two ordinary paragraphs
and a level-2 heading, no level-1 heading. -/
theorem SplitChildren_no_heading_single_child_witness :
    (Slide.mk "1" (.str "t") "" ""
      (.list [.sym symBlock,
        .list [.sym "PARA", .list [.sym symText, .str "x"]],
        .list [.sym symHeading, .num 2, .list [], .str "", .str "",
          .list [.sym symText, .str "h"]],
        .list [.sym "PARA", .list [.sym symText, .str "y"]]])).SplitChildren =
    [(Slide.mk "1" (.str "t") "" ""
      (.list [.sym symBlock,
        .list [.sym "PARA", .list [.sym symText, .str "x"]],
        .list [.sym symHeading, .num 2, .list [], .str "", .str "",
          .list [.sym symText, .str "h"]],
        .list [.sym "PARA", .list [.sym symText, .str "y"]]])).MakeChild (.str "t")
      (.list [.list [.sym "PARA", .list [.sym symText, .str "x"]],
        .list [.sym symHeading, .num 2, .list [], .str "", .str "",
          .list [.sym symText, .str "h"]],
        .list [.sym "PARA", .list [.sym symText, .str "y"]]])] := by
  exact SplitChildren_no_heading_single_child _ (by rfl) (by rfl)

end ZPres

namespace ZPres

end ZPres

namespace ZPres

theorem splitScan_child_fields (sl : Slide) (bs : List Sx) :
    ∀ title acc c, c ∈ splitScan sl bs title acc →
      c.zid = sl.zid ∧ c.role = sl.role ∧ c.lang = sl.lang := by
  induction bs with
  | nil =>
    intro title acc c hc
    rw [splitScan] at hc
    rcases List.mem_singleton.mp hc with rfl
    simp [Slide.MakeChild]
  | cons b rest ih =>
    intro title acc c hc
    rw [splitScan] at hc
    rcases hstep : blockStep b with _ | nt | _ <;> rw [hstep] at hc
    · exact ih _ _ c hc
    · rcases List.mem_cons.mp hc with rfl | hmem
      · simp [Slide.MakeChild]
      · exact ih _ _ c hmem
    · rcases List.mem_singleton.mp hc with rfl
      simp [Slide.MakeChild]

theorem splitScan_length (sl : Slide) (bs : List Sx) :
    ∀ title acc, (splitScan sl bs title acc).length = countQ bs + 1 := by
  induction bs with
  | nil =>
    intro title acc
    simp [splitScan, countQ]
  | cons b rest ih =>
    intro title acc
    rcases hstep : blockStep b with _ | nt | _ <;>
      simp [splitScan, countQ, hstep, ih]

theorem SplitChildren_length (sl : Slide) :
    sl.SplitChildren.length = countQ (sl.content.listElems.drop 1) + 1 :=
  splitScan_length sl _ sl.title []

theorem SplitChildren_fields (sl : Slide) :
    ∀ c ∈ sl.SplitChildren, c.zid = sl.zid ∧ c.role = sl.role ∧ c.lang = sl.lang :=
  fun c hc => splitScan_child_fields sl _ sl.title [] c hc

theorem numberChildrenShow_length (cs : List Slide) :
    ∀ n, (numberChildrenShow cs n).length = cs.length := by
  induction cs with
  | nil => intro n; rfl
  | cons c cs ih => intro n; simp [numberChildrenShow, ih]

theorem numberChildrenShow_get (cs : List Slide) :
    ∀ (n : Int) (j : Nat) (cj : ChildInfo), (numberChildrenShow cs n)[j]? = some cj →
      cj.Slide ∈ cs ∧ cj.SlideNo = n + (j : Int) ∧ cj.Number = n + (j : Int) := by
  induction cs with
  | nil =>
    intro n j cj h
    simp [numberChildrenShow] at h
  | cons c cs ih =>
    intro n j cj h
    rw [numberChildrenShow] at h
    match j with
    | 0 =>
      rw [List.getElem?_cons_zero] at h
      cases h
      simp
    | j + 1 =>
      rw [List.getElem?_cons_succ] at h
      obtain ⟨hmem, hsn, hnum⟩ := ih (n + 1) j cj h
      refine ⟨List.mem_cons_of_mem c hmem, ?_, ?_⟩
      · rw [hsn]
        push_cast
        ring
      · rw [hnum]
        push_cast
        ring

theorem numberChildrenHandout_get (cs : List Slide) :
    ∀ (n : Int) (j : Nat) (cj : ChildInfo), (numberChildrenHandout cs n)[j]? = some cj →
      cj.Slide ∈ cs ∧ cj.SlideNo = n + (j : Int) ∧ cj.Number = 0 := by
  induction cs with
  | nil =>
    intro n j cj h
    simp [numberChildrenHandout] at h
  | cons c cs ih =>
    intro n j cj h
    rw [numberChildrenHandout] at h
    match j with
    | 0 =>
      rw [List.getElem?_cons_zero] at h
      cases h
      simp
    | j + 1 =>
      rw [List.getElem?_cons_succ] at h
      obtain ⟨hmem, hsn, hnum⟩ := ih (n + 1) j cj h
      refine ⟨List.mem_cons_of_mem c hmem, ?_, hnum⟩
      rw [hsn]
      push_cast
      ring

end ZPres

namespace ZPres

theorem mem_numberChildrenShow (cs : List Slide) :
    ∀ n ci, ci ∈ numberChildrenShow cs n → ci.Slide ∈ cs := by
  induction cs with
  | nil => intro n ci h; simp [numberChildrenShow] at h
  | cons c cs ih =>
    intro n ci h
    rw [numberChildrenShow] at h
    rcases List.mem_cons.mp h with rfl | hmem
    · simp
    · exact List.mem_cons_of_mem c (ih (n + 1) ci hmem)

theorem mem_numberChildrenHandout (cs : List Slide) :
    ∀ n ci, ci ∈ numberChildrenHandout cs n → ci.Slide ∈ cs := by
  induction cs with
  | nil => intro n ci h; simp [numberChildrenHandout] at h
  | cons c cs ih =>
    intro n ci h
    rw [numberChildrenHandout] at h
    rcases List.mem_cons.mp h with rfl | hmem
    · simp
    · exact List.mem_cons_of_mem c (ih (n + 1) ci hmem)

theorem slidesforShowFrom_entry (slist : List Slide) :
    ∀ (n : Int) (i : Nat) (e : ShowInfo), (slidesforShowFrom slist n)[i]? = some e →
      e.Slide.HasSlideRole SlideRoleShow = true ∧
      e.Number = e.SlideNo ∧
      e.children = numberChildrenShow e.Slide.SplitChildren e.SlideNo := by
  induction slist with
  | nil => intro n i e h; simp [slidesforShowFrom] at h
  | cons sl rest ih =>
    intro n i e h
    rw [slidesforShowFrom] at h
    by_cases hrole : sl.HasSlideRole SlideRoleShow = true
    · rw [if_pos hrole] at h
      match i with
      | 0 =>
        rw [List.getElem?_cons_zero] at h
        cases h
        exact ⟨hrole, rfl, rfl⟩
      | i + 1 =>
        rw [List.getElem?_cons_succ] at h
        exact ih _ i e h
    · rw [if_neg hrole] at h
      exact ih _ i e h

theorem slidesforShowFrom_head (slist : List Slide) :
    ∀ (n : Int) (e : ShowInfo), (slidesforShowFrom slist n)[0]? = some e →
      e.SlideNo = n := by
  induction slist with
  | nil => intro n e h; simp [slidesforShowFrom] at h
  | cons sl rest ih =>
    intro n e h
    rw [slidesforShowFrom] at h
    by_cases hrole : sl.HasSlideRole SlideRoleShow = true
    · rw [if_pos hrole, List.getElem?_cons_zero] at h
      cases h
      rfl
    · rw [if_neg hrole] at h
      exact ih n e h

theorem slidesforShowFrom_next (slist : List Slide) :
    ∀ (n : Int) (i : Nat) (e e' : ShowInfo),
      (slidesforShowFrom slist n)[i]? = some e →
      (slidesforShowFrom slist n)[i + 1]? = some e' →
      e'.SlideNo = e.SlideNo + e.children.length := by
  induction slist with
  | nil => intro n i e e' h h'; simp [slidesforShowFrom] at h
  | cons sl rest ih =>
    intro n i e e' h h'
    rw [slidesforShowFrom] at h h'
    by_cases hrole : sl.HasSlideRole SlideRoleShow = true
    · rw [if_pos hrole] at h h'
      match i with
      | 0 =>
        rw [List.getElem?_cons_zero] at h
        cases h
        rw [List.getElem?_cons_succ] at h'
        have hhead := slidesforShowFrom_head rest _ e' h'
        rw [hhead]
        simp [numberChildrenShow_length]
      | i + 1 =>
        rw [List.getElem?_cons_succ] at h h'
        exact ih _ i e e' h h'
    · rw [if_neg hrole] at h h'
      exact ih _ i e e' h h'

/-- C4: split numbering in `slidesforShow`.  For the `i`-th emitted
slide whose content holds `k` qualifying level-1 headings (producing
`k + 1` split children), the parent node and its first child share the
parent's `SlideNo`, each subsequent child is numbered one higher, the
last child ends at the parent's `SlideNo + k`, and the next top-level
slide continues at the parent's `SlideNo + k + 1`. -/
theorem slidesforShow_split_numbering (s : SlideSet) (offset : Int) (i k : Nat)
    (e : ShowInfo) (he : (s.slidesforShow offset)[i]? = some e)
    (hk : countQ (e.Slide.content.listElems.drop 1) = k) :
    e.children.length = k + 1 ∧
    e.Number = e.SlideNo ∧
    (∀ (j : Nat) (cj : ChildInfo), e.children[j]? = some cj →
      cj.SlideNo = e.SlideNo + (j : Int) ∧ cj.Number = e.SlideNo + (j : Int)) ∧
    (∃ clast, e.children[k]? = some clast ∧ clast.SlideNo = e.SlideNo + (k : Int)) ∧
    (∀ e', (s.slidesforShow offset)[i + 1]? = some e' →
      e'.SlideNo = e.SlideNo + ((k : Int) + 1)) := by
  obtain ⟨hrole, hnum, hch⟩ := slidesforShowFrom_entry _ offset i e he
  have hlen : e.children.length = k + 1 := by
    rw [hch, numberChildrenShow_length, SplitChildren_length, hk]
  have hall : ∀ (j : Nat) (cj : ChildInfo), e.children[j]? = some cj →
      cj.SlideNo = e.SlideNo + (j : Int) ∧ cj.Number = e.SlideNo + (j : Int) := by
    intro j cj hj
    rw [hch] at hj
    obtain ⟨_, hsn, hn⟩ := numberChildrenShow_get _ _ j cj hj
    exact ⟨hsn, hn⟩
  refine ⟨hlen, hnum, hall, ?_, ?_⟩
  · have hklt : k < e.children.length := by omega
    exact ⟨e.children[k], List.getElem?_eq_getElem hklt,
      (hall k _ (List.getElem?_eq_getElem hklt)).1⟩
  · intro e' he'
    have := slidesforShowFrom_next _ offset i e e' he he'
    rw [this, hlen]
    push_cast
    ring

end ZPres

namespace ZPres

/-- A show-role slide with one paragraph and one qualifying level-1
heading (used as concrete witness input). -/
def wSlide : Slide :=
  { zid := "1", title := .str "t", lang := "", role := ""
    content := .list [.sym symBlock, .list [.sym "PARA"],
      .list [.sym symHeading, .num 1, .list [], .str "", .str "",
        .list [.sym symText, .str "h"]]] }

/-- A slide set holding only `wSlide`. -/
def wSet : SlideSet :=
  { zid := "", sxMeta := [], slides := [wSlide], seqSlide := [0],
    setSlide := [("1", 0)], setImage := [], isCompleted := false,
    hasMermaid := false }

/-- First split child of `wSlide`: parent title, the paragraph. -/
def wChild1 : Slide := wSlide.MakeChild wSlide.title (.list [.list [.sym "PARA"]])

/-- Second split child of `wSlide`: the heading title, no blocks. -/
def wChild2 : Slide := wSlide.MakeChild (.list [.sym symText, .str "h"]) (.list [])

/-- The show entry produced for `wSlide` at offset 1. -/
def wEntry : ShowInfo := ⟨wSlide, 1, 1, [⟨wChild1, 1, 1⟩, ⟨wChild2, 2, 2⟩]⟩

/-- Witness for C4: the one-slide set with one qualifying heading. -/
theorem slidesforShow_split_numbering_witness :
    (wSet.slidesforShow 1)[0]? = some wEntry ∧
    wEntry.children.length = 1 + 1 ∧
    wEntry.Number = wEntry.SlideNo ∧
    (⟨wChild2, 2, 2⟩ : ChildInfo).SlideNo = wEntry.SlideNo + (1 : Int) := by
  have h := slidesforShow_split_numbering wSet 1 0 1 wEntry rfl rfl
  exact ⟨rfl, h.1, h.2.1, (h.2.2.1 1 ⟨wChild2, 2, 2⟩ rfl).1⟩

theorem hasSlideRole_show_ne_handout (sl : Slide)
    (h : sl.HasSlideRole SlideRoleShow = true) : sl.role ≠ SlideRoleHandout := by
  rw [Slide.HasSlideRole] at h
  rw [if_neg (by decide)] at h
  by_cases hr : sl.role = ""
  · rw [hr]
    decide
  · rw [if_neg hr] at h
    have : sl.role = SlideRoleShow := by simpa using h
    rw [this]
    decide

theorem hasSlideRole_handout_ne_show (sl : Slide)
    (h : sl.HasSlideRole SlideRoleHandout = true) : sl.role ≠ SlideRoleShow := by
  rw [Slide.HasSlideRole] at h
  rw [if_neg (by decide)] at h
  by_cases hr : sl.role = ""
  · rw [hr]
    decide
  · rw [if_neg hr] at h
    have : sl.role = SlideRoleHandout := by simpa using h
    rw [this]
    decide

theorem mem_slidesforShowFrom (slist : List Slide) :
    ∀ n e, e ∈ slidesforShowFrom slist n →
      e.Slide.HasSlideRole SlideRoleShow = true ∧
      ∀ ci ∈ e.children, ci.Slide.role = e.Slide.role := by
  induction slist with
  | nil => intro n e h; simp [slidesforShowFrom] at h
  | cons sl rest ih =>
    intro n e h
    rw [slidesforShowFrom] at h
    by_cases hrole : sl.HasSlideRole SlideRoleShow = true
    · rw [if_pos hrole] at h
      rcases List.mem_cons.mp h with rfl | hmem
      · refine ⟨hrole, ?_⟩
        intro ci hci
        have hmem2 := mem_numberChildrenShow _ _ ci hci
        exact (SplitChildren_fields sl ci.Slide hmem2).2.1
      · exact ih _ e hmem
    · rw [if_neg hrole] at h
      exact ih _ e h

theorem mem_slidesForHandoutFrom (slist : List Slide) :
    ∀ number slideNo e, e ∈ slidesForHandoutFrom slist number slideNo →
      e.Slide.HasSlideRole SlideRoleHandout = true ∧
      ∀ ci ∈ e.children, ci.Slide.role = e.Slide.role := by
  induction slist with
  | nil => intro number slideNo e h; simp [slidesForHandoutFrom] at h
  | cons sl rest ih =>
    intro number slideNo e h
    rw [slidesForHandoutFrom] at h
    by_cases hh : sl.HasSlideRole SlideRoleHandout = true
    · rw [if_pos hh] at h
      by_cases hs : sl.HasSlideRole SlideRoleShow = true
      · rw [if_pos hs] at h
        rcases List.mem_cons.mp h with rfl | hmem
        · refine ⟨hh, ?_⟩
          intro ci hci
          have hmem2 := mem_numberChildrenHandout _ _ ci hci
          exact (SplitChildren_fields sl ci.Slide hmem2).2.1
        · exact ih _ _ e hmem
      · rw [if_neg hs] at h
        rcases List.mem_cons.mp h with rfl | hmem
        · exact ⟨hh, by intro ci hci; simp at hci⟩
        · exact ih _ _ e hmem
    · rw [if_neg hh] at h
      by_cases hs : sl.HasSlideRole SlideRoleShow = true
      · rw [if_pos hs] at h
        exact ih _ _ e h
      · rw [if_neg hs] at h
        exact ih _ _ e h

/-- C6: role filtering.  No node of the `Slides("show", 1)` traversal —
top-level via `next` or child — wraps a slide whose role is exactly
"handout", and no node of the `Slides("handout", 1)` traversal wraps a
slide whose role is exactly "show". -/
theorem Slides_role_filtering (s : SlideSet) :
    (∀ l, s.Slides SlideRoleShow 1 = some (.show l) →
      ∀ e ∈ l, e.Slide.role ≠ SlideRoleHandout ∧
        ∀ ci ∈ e.children, ci.Slide.role ≠ SlideRoleHandout) ∧
    (∀ l, s.Slides SlideRoleHandout 1 = some (.handout l) →
      ∀ e ∈ l, e.Slide.role ≠ SlideRoleShow ∧
        ∀ ci ∈ e.children, ci.Slide.role ≠ SlideRoleShow) := by
  constructor
  · intro l hl e he
    have hl' : l = s.slidesforShow 1 := by
      rw [SlideSet.Slides, if_pos rfl] at hl
      cases hl
      rfl
    subst hl'
    obtain ⟨hrole, hch⟩ := mem_slidesforShowFrom _ 1 e he
    have hne := hasSlideRole_show_ne_handout e.Slide hrole
    exact ⟨hne, fun ci hci => by rw [hch ci hci]; exact hne⟩
  · intro l hl e he
    have hl' : l = s.slidesForHandout 1 := by
      rw [SlideSet.Slides, if_neg (by decide), if_pos rfl] at hl
      cases hl
      rfl
    subst hl'
    obtain ⟨hrole, hch⟩ := mem_slidesForHandoutFrom _ 1 1 e he
    have hne := hasSlideRole_handout_ne_show e.Slide hrole
    exact ⟨hne, fun ci hci => by rw [hch ci hci]; exact hne⟩

/-- Witness for C6: a two-slide set (one "show" slide, one "handout"
slide); the show traversal yields only the show slide, the handout
traversal only the handout slide. -/
theorem Slides_role_filtering_witness :
    ((⟨"", [], [⟨"1", .str "t", "", SlideRoleShow, .list [.sym symBlock]⟩,
        ⟨"2", .str "u", "", SlideRoleHandout, .list [.sym symBlock]⟩],
      [0, 1], [("1", 0), ("2", 1)], [], false, false⟩ : SlideSet).Slides
        SlideRoleShow 1 = some (.show [⟨⟨"1", .str "t", "", SlideRoleShow,
          .list [.sym symBlock]⟩, 1, 1,
          [⟨⟨"1", .str "t", "", SlideRoleShow, .list []⟩, 1, 1⟩]⟩])) ∧
    (⟨"1", .str "t", "", SlideRoleShow, .list []⟩ : Slide).role ≠ SlideRoleHandout := by
  constructor
  · rfl
  · have h := (Slides_role_filtering (⟨"", [], [⟨"1", .str "t", "", SlideRoleShow, .list [.sym symBlock]⟩,
        ⟨"2", .str "u", "", SlideRoleHandout, .list [.sym symBlock]⟩],
      [0, 1], [("1", 0), ("2", 1)], [], false, false⟩ : SlideSet)).1
      _ rfl _ (List.mem_singleton.mpr rfl)
    exact h.2 _ (List.mem_singleton.mpr rfl)

end ZPres

namespace ZPres

/-- An internal zettel link node `(LINK-ZETTEL attrs target)`. -/
def linkNode (zid : ZettelID) : Sx :=
  .list [.sym symLinkZettel, .list [], .str zid]

/-- A content tree holding exactly one link to `zid`. -/
def cyclicContent (zid : ZettelID) : Sx :=
  .list [.sym symBlock, linkNode zid]

/-- Public-visibility metadata. -/
def pubMeta : Meta := [(KeyVisibility, .str ValueVisibilityPublic)]

/-- A content store where `a` links to `b` and `b` links back to `a`. -/
def cyclicStore (a b : ZettelID) : ZStore :=
  [(a, ⟨pubMeta, cyclicContent b⟩), (b, ⟨pubMeta, cyclicContent a⟩)]

/-- The slide set holding `a` and `b` (added through `AddSlide`, fetched
from the cyclic store). -/
def cyclicSet (a b : ZettelID) : SlideSet :=
  ((newSlideSetMeta "" []).AddSlide a (cyclicStore a b)).AddSlide b (cyclicStore a b)

theorem isValid_ne_invalid {z : ZettelID} (h : ZettelID.isValid z = true) :
    z ≠ InvalidZID := by
  intro heq
  rw [heq] at h
  cases h

/-- C1: the closure traversal terminates on a cyclic link graph.  With
slides `a` and `b` each holding an internal link to the other,
`Completion`'s worklist loop halts with an empty stack, every marked
identifier is marked exactly once (the visited list, which records the
marks in order, is exactly `[b, a]`), and `Completion` itself returns
the completed set.  Each mark corresponds to one pop and one content
walk, so `a` and `b` are each popped, marked and walked exactly once. -/
theorem Completion_terminates_on_cycle (a b : ZettelID)
    (ha : ZettelID.isValid a = true) (hb : ZettelID.isValid b = true)
    (hab : a ≠ b) :
    completionRun [] (cyclicStore a b) (cyclicSet a b) =
      some ⟨cyclicSet a b, [], [b, a], false⟩ ∧
    (cyclicSet a b).Completion [] (cyclicStore a b) =
      some { cyclicSet a b with isCompleted := true } := by
  have ha0 : ¬ a = InvalidZID := isValid_ne_invalid ha
  have hb0 : ¬ b = InvalidZID := isValid_ne_invalid hb
  have hba : ¬ b = a := fun h => hab h.symm
  have hset : cyclicSet a b =
      ⟨"", [], [newSlide a pubMeta (cyclicContent b),
        newSlide b pubMeta (cyclicContent a)], [0, 1],
        [(a, 0), (b, 1)], [], false, false⟩ := by
    rw [cyclicSet, newSlideSetMeta]
    rw [SlideSet.AddSlide]
    simp only [alookup]
    rw [SlideSet.AddSlide]
    simp only [cyclicStore, alookup, if_pos rfl, if_neg hba, if_neg hab, ainsert]
    rfl
  have hrun : completionRun [] (cyclicStore a b) (cyclicSet a b) =
      some ⟨cyclicSet a b, [], [b, a], false⟩ := by
    rw [hset, completionRun]
    show completionLoop [] (cyclicStore a b)
        ⟨⟨"", [], [newSlide a pubMeta (cyclicContent b),
          newSlide b pubMeta (cyclicContent a)], [0, 1],
          [(a, 0), (b, 1)], [], false, false⟩, [a, b], [], false⟩ =
      some ⟨⟨"", [], [newSlide a pubMeta (cyclicContent b),
          newSlide b pubMeta (cyclicContent a)], [0, 1],
          [(a, 0), (b, 1)], [], false, false⟩, [], [b, a], false⟩
    trans (completionLoop [] (cyclicStore a b)
      ⟨⟨"", [], [newSlide a pubMeta (cyclicContent b),
        newSlide b pubMeta (cyclicContent a)], [0, 1],
        [(a, 0), (b, 1)], [], false, false⟩, [b], [a], false⟩)
    · rw [completionLoop.eq_def]
      simp [CollectEnv.mark, SlideSet.getSlideIdx, SlideSet.slideAt, visitContent,
        visitElems, elemStep, CollectEnv.visitZettel, CollectEnv.isMarked, linkArg,
        alookup, cyclicStore, cyclicContent, linkNode, newSlide, symText, symSpace,
        symVerbatimEval, symLinkZettel, symEmbed, ha0, hab, hba, hb]
    trans (completionLoop [] (cyclicStore a b)
      ⟨⟨"", [], [newSlide a pubMeta (cyclicContent b),
        newSlide b pubMeta (cyclicContent a)], [0, 1],
        [(a, 0), (b, 1)], [], false, false⟩, [], [b, a], false⟩)
    · rw [completionLoop.eq_def]
      simp [CollectEnv.mark, SlideSet.getSlideIdx, SlideSet.slideAt, visitContent,
        visitElems, elemStep, CollectEnv.visitZettel, CollectEnv.isMarked, linkArg,
        alookup, cyclicStore, cyclicContent, linkNode, newSlide, symText, symSpace,
        symVerbatimEval, symLinkZettel, symEmbed, hb0, hab, hba, ha]
    · rw [completionLoop.eq_def]
  refine ⟨hrun, ?_⟩
  rw [SlideSet.Completion]
  rw [if_neg (by rw [hset]; simp)]
  rw [hrun, hset]

end ZPres

namespace ZPres

/-- Witness for C1: two concrete identifiers linking to each other. -/
theorem Completion_terminates_on_cycle_witness :
    completionRun [] (cyclicStore "10000000000001" "10000000000002")
      (cyclicSet "10000000000001" "10000000000002") =
      some ⟨cyclicSet "10000000000001" "10000000000002", [],
        ["10000000000002", "10000000000001"], false⟩ :=
  (Completion_terminates_on_cycle "10000000000001" "10000000000002"
    (by decide) (by decide) (by decide)).1

end ZPres

namespace ZPres

/-- Well-formed slide sets: every stored slide pointer (arena index) is
in range.  Every slide set the Go program builds satisfies this (Go
pointers cannot dangle); it rules out the artificial out-of-range
indices the arena model would otherwise admit. -/
def SlideSet.WF (s : SlideSet) : Prop :=
  (∀ i ∈ s.seqSlide, i < s.slides.length) ∧
  (∀ p ∈ s.setSlide, p.2 < s.slides.length)

theorem mem_ainsert {β : Type} {m : List (String × β)} {k : String} {v : β} :
    ∀ p ∈ ainsert m k v, p ∈ m ∨ p = (k, v) := by
  induction m with
  | nil =>
    intro p hp
    rw [ainsert] at hp
    exact Or.inr (List.mem_singleton.mp hp)
  | cons q rest ih =>
    intro p hp
    obtain ⟨k0, w⟩ := q
    rw [ainsert] at hp
    by_cases hk : k0 = k
    · rw [if_pos hk] at hp
      rcases List.mem_cons.mp hp with rfl | hmem
      · subst hk
        exact Or.inr rfl
      · exact Or.inl (List.mem_cons_of_mem _ hmem)
    · rw [if_neg hk] at hp
      rcases List.mem_cons.mp hp with rfl | hmem
      · exact Or.inl (List.mem_cons_self _ _)
      · rcases ih p hmem with h | h
        · exact Or.inl (List.mem_cons_of_mem _ h)
        · exact Or.inr h

theorem slideZids_AdditionalSlide (s : SlideSet) (z : ZettelID) (m : Meta) (c : Sx)
    (hwf : ∀ i ∈ s.seqSlide, i < s.slides.length) :
    (s.AdditionalSlide z m c).slideZids = s.slideZids ++ [z] := by
  have hnew : (s.AdditionalSlide z m c).slideAt s.slides.length = newSlide z m c := by
    simp only [SlideSet.AdditionalSlide, SlideSet.slideAt]
    rw [List.getD_eq_getElem?_getD, List.getElem?_append_right (le_refl _)]
    simp
  rw [SlideSet.slideZids, SlideSet.slideZids]
  have hseq : (s.AdditionalSlide z m c).seqSlide = s.seqSlide ++ [s.slides.length] := rfl
  rw [hseq, List.map_append]
  congr 1
  · apply List.map_congr_left
    intro i hi
    have heq : (s.AdditionalSlide z m c).slideAt i = s.slideAt i := by
      simp only [SlideSet.AdditionalSlide, SlideSet.slideAt]
      rw [List.getD_eq_getElem?_getD, List.getD_eq_getElem?_getD,
        List.getElem?_append_left (hwf i hi)]
    rw [heq]
  · simp [hnew, newSlide]

theorem WF_AdditionalSlide (s : SlideSet) (z : ZettelID) (m : Meta) (c : Sx)
    (hwf : s.WF) : (s.AdditionalSlide z m c).WF := by
  obtain ⟨h1, h2⟩ := hwf
  constructor
  · intro i hi
    simp only [SlideSet.AdditionalSlide, List.length_append, List.length_cons,
      List.length_nil] at hi ⊢
    rcases List.mem_append.mp hi with hm | hm
    · have := h1 i hm
      omega
    · rcases List.mem_singleton.mp hm with rfl
      omega
  · intro p hp
    simp only [SlideSet.AdditionalSlide, List.length_append, List.length_cons,
      List.length_nil] at hp ⊢
    rcases mem_ainsert p hp with hm | hm
    · have := h2 p hm
      omega
    · rcases hm with rfl
      simp

end ZPres

namespace ZPres

/-- The C3 loop invariant: the slide set stays well-formed, the
filtered identifier never enters the slide sequence, and its `setSlide`
entry never changes. -/
def C3Inv (zid : ZettelID) (v : Option Nat) (env : CollectEnv) : Prop :=
  env.s.WF ∧ zid ∉ env.s.slideZids ∧ alookup env.s.setSlide zid = v

theorem C3Inv_visitZettel (zetStore : ZStore) (zid : ZettelID) (ztl : Zettel)
    (v : Option Nat) (hstore : alookup zetStore zid = some ztl)
    (hvis : ztl.meta.getString KeyVisibility ≠ ValueVisibilityPublic)
    (env : CollectEnv) (z : ZettelID) (hinv : C3Inv zid v env) :
    C3Inv zid v (env.visitZettel zetStore z) := by
  obtain ⟨hwf, hseq, hlook⟩ := hinv
  rcases hfetch : alookup zetStore z with _ | ztl'
  · rw [CollectEnv.visitZettel]
    simp only [hfetch]
    split
    · exact ⟨hwf, hseq, hlook⟩
    · exact ⟨hwf, hseq, hlook⟩
  · rw [CollectEnv.visitZettel]
    simp only [hfetch]
    split
    · exact ⟨hwf, hseq, hlook⟩
    · rename_i hguard
      split
      · exact ⟨hwf, hseq, hlook⟩
      · rename_i hpub
        have hz : z ≠ zid := by
          intro heq
          subst heq
          rw [hstore] at hfetch
          cases hfetch
          exact hpub hvis
        refine ⟨WF_AdditionalSlide _ _ _ _ hwf, ?_, ?_⟩
        · rw [slideZids_AdditionalSlide _ _ _ _ hwf.1]
          intro hmem
          rcases List.mem_append.mp hmem with hm | hm
          · exact hseq hm
          · exact hz (List.mem_singleton.mp hm).symm
        · rw [SlideSet.AdditionalSlide]
          simp only []
          rw [alookup_ainsert_ne _ _ _ _ (fun h => hz h.symm)]
          exact hlook

theorem C3Inv_visitImage (rawStore : IStore) (zid : ZettelID) (v : Option Nat)
    (env : CollectEnv) (z : ZettelID) (syn : String) (hinv : C3Inv zid v env) :
    C3Inv zid v (env.visitImage rawStore z syn) := by
  obtain ⟨hwf, hseq, hlook⟩ := hinv
  rw [CollectEnv.visitImage]
  split
  · exact ⟨hwf, hseq, hlook⟩
  · split
    · exact ⟨hwf, hseq, hlook⟩
    · exact ⟨⟨hwf.1, hwf.2⟩, hseq, hlook⟩

theorem C3Inv_elemStep (rawStore : IStore) (zetStore : ZStore) (zid : ZettelID)
    (ztl : Zettel) (v : Option Nat) (hstore : alookup zetStore zid = some ztl)
    (hvis : ztl.meta.getString KeyVisibility ≠ ValueVisibilityPublic)
    (sname : String) (t : List Sx) (recres env : CollectEnv)
    (hrec : C3Inv zid v env → C3Inv zid v recres) (hinv : C3Inv zid v env) :
    C3Inv zid v (elemStep rawStore zetStore sname t recres env) := by
  rw [elemStep]
  split_ifs
  · exact hinv
  · exact hinv
  · exact ⟨hinv.1, hinv.2.1, hinv.2.2⟩
  · split
    · exact C3Inv_visitZettel zetStore zid ztl v hstore hvis env _ hinv
    · exact hinv
  · split
    · exact C3Inv_visitImage rawStore zid v env _ _ hinv
    · exact hinv
  · exact hrec hinv

theorem C3Inv_visitElems (rawStore : IStore) (zetStore : ZStore) (zid : ZettelID)
    (ztl : Zettel) (v : Option Nat) (hstore : alookup zetStore zid = some ztl)
    (hvis : ztl.meta.getString KeyVisibility ≠ ValueVisibilityPublic)
    (l : List Sx) (env : CollectEnv) (hinv : C3Inv zid v env) :
    C3Inv zid v (visitElems rawStore zetStore l env) := by
  induction l, env using visitElems.induct rawStore zetStore
  case case1 => rwa [visitElems]
  case case2 env iht ihrest =>
    rw [visitElems]
    exact ihrest (C3Inv_elemStep rawStore zetStore zid ztl v hstore hvis _ _ _ env
      (fun _ => iht hinv) hinv)
  all_goals rw [visitElems]
  all_goals rename_i ih
  all_goals exact ih hinv

theorem C3Inv_visitContent (rawStore : IStore) (zetStore : ZStore) (zid : ZettelID)
    (ztl : Zettel) (v : Option Nat) (hstore : alookup zetStore zid = some ztl)
    (hvis : ztl.meta.getString KeyVisibility ≠ ValueVisibilityPublic)
    (content : Sx) (env : CollectEnv) (hinv : C3Inv zid v env) :
    C3Inv zid v (visitContent rawStore zetStore content env) := by
  cases content with
  | sym s => exact hinv
  | str s => exact hinv
  | num n => exact hinv
  | list elems =>
    exact C3Inv_visitElems rawStore zetStore zid ztl v hstore hvis _ env hinv

theorem C3Inv_completionLoop (rawStore : IStore) (zetStore : ZStore) (zid : ZettelID)
    (ztl : Zettel) (v : Option Nat) (hstore : alookup zetStore zid = some ztl)
    (hvis : ztl.meta.getString KeyVisibility ≠ ValueVisibilityPublic)
    (env : CollectEnv) :
    C3Inv zid v env → ∀ env', completionLoop rawStore zetStore env = some env' →
      C3Inv zid v env' := by
  induction env using completionLoop.induct rawStore zetStore with
  | case1 x hstk =>
    intro hinv env' h
    rw [completionLoop.eq_def, hstk] at h
    cases h
    exact hinv
  | case2 x zid0 rest hstk env1 hmem ih =>
    intro hinv env' h
    rw [completionLoop.eq_def, hstk] at h
    simp only [] at h
    rw [if_pos hmem] at h
    exact ih hinv env' h
  | case3 x rest env1 hstk hmem ih =>
    intro hinv env' h
    rw [completionLoop.eq_def, hstk] at h
    simp only [] at h
    rw [if_neg hmem] at h
    simp only [if_true] at h
    exact ih hinv env' h
  | case4 x zid0 rest hstk hmem hzid hidx =>
    intro hinv env' h
    rw [completionLoop.eq_def, hstk] at h
    simp only [] at h
    rw [if_neg hmem, if_neg hzid, hidx] at h
    cases h
  | case5 x zid0 rest hstk env1 hmem hzid idx hidx env2 env3 ih =>
    intro hinv env' h
    rw [completionLoop.eq_def, hstk] at h
    simp only [] at h
    rw [if_neg hmem, if_neg hzid, hidx] at h
    refine ih ?_ env' h
    exact C3Inv_visitContent rawStore zetStore zid ztl v hstore hvis _ _
      ⟨hinv.1, hinv.2.1, hinv.2.2⟩

/-- C3: visibility filter on closure discovery.  An identifier that is
not in the slide sequence before `Completion` and whose fetched
metadata declares a non-"public" visibility is never added to
`seqSlide` (so after `Completion` the sequence contains no such zettel)
and its `setSlide` entry is unchanged. -/
theorem Completion_visibility_filter (s : SlideSet) (rawStore : IStore)
    (zetStore : ZStore) (s' : SlideSet) (zid : ZettelID) (ztl : Zettel)
    (hwf : s.WF)
    (hstore : alookup zetStore zid = some ztl)
    (hvis : ztl.meta.getString KeyVisibility ≠ ValueVisibilityPublic)
    (hinit : zid ∉ s.slideZids)
    (hcomp : s.Completion rawStore zetStore = some s') :
    zid ∉ s'.slideZids ∧ alookup s'.setSlide zid = alookup s.setSlide zid := by
  rw [SlideSet.Completion] at hcomp
  by_cases hc : s.isCompleted
  · rw [if_pos hc] at hcomp
    cases hcomp
    exact ⟨hinit, rfl⟩
  · rw [if_neg hc] at hcomp
    rcases hrun : completionRun rawStore zetStore s with _ | env
    · rw [hrun] at hcomp
      cases hcomp
    · rw [hrun] at hcomp
      cases hcomp
      have hloop := C3Inv_completionLoop rawStore zetStore zid ztl
        (alookup s.setSlide zid) hstore hvis (initCollection s)
        ⟨hwf, hinit, rfl⟩ env hrun
      exact ⟨hloop.2.1, hloop.2.2⟩

end ZPres

namespace ZPres

/-- Non-public metadata used by the visibility witness. -/
def privMeta : Meta := [(KeyVisibility, .str "private")]

/-- Store for the visibility witness: a public zettel linking to a
private one. -/
def vwStore : ZStore :=
  [("10000000000001", ⟨pubMeta, cyclicContent "10000000000003"⟩),
   ("10000000000003", ⟨privMeta, .list [.sym symBlock]⟩)]

/-- Slide set for the visibility witness: only the public zettel. -/
def vwSet : SlideSet := (newSlideSetMeta "" []).AddSlide "10000000000001" vwStore

/-- Witness for C3: completing `vwSet` never pulls in the private
zettel. -/
theorem Completion_visibility_filter_witness :
    vwSet.Completion [] vwStore = some { vwSet with isCompleted := true } ∧
    "10000000000003" ∉ ({ vwSet with isCompleted := true } : SlideSet).slideZids ∧
    alookup ({ vwSet with isCompleted := true } : SlideSet).setSlide "10000000000003" =
      alookup vwSet.setSlide "10000000000003" := by
  have hrun : completionRun [] vwStore vwSet =
      some ⟨vwSet, [], ["10000000000001"], false⟩ := by
    rw [completionRun]
    show completionLoop [] vwStore
        ⟨⟨"", [], [newSlide "10000000000001" pubMeta
          (cyclicContent "10000000000003")], [0], [("10000000000001", 0)],
          [], false, false⟩, ["10000000000001"], [], false⟩ =
      some ⟨⟨"", [], [newSlide "10000000000001" pubMeta
          (cyclicContent "10000000000003")], [0], [("10000000000001", 0)],
          [], false, false⟩, [], ["10000000000001"], false⟩
    trans (completionLoop [] vwStore
      ⟨⟨"", [], [newSlide "10000000000001" pubMeta
        (cyclicContent "10000000000003")], [0], [("10000000000001", 0)],
        [], false, false⟩, [], ["10000000000001"], false⟩)
    · have hv : ZettelID.isValid "10000000000003" = true := by decide
      rw [completionLoop.eq_def]
      simp [CollectEnv.mark, SlideSet.getSlideIdx, SlideSet.slideAt, visitContent,
        visitElems, elemStep, CollectEnv.visitZettel, CollectEnv.isMarked, linkArg,
        alookup, vwStore, cyclicContent, linkNode, newSlide, symText, symSpace,
        symVerbatimEval, symLinkZettel, symEmbed, InvalidZID, hv,
        Meta.getString, privMeta, KeyVisibility, ValueVisibilityPublic]
    · rw [completionLoop.eq_def]
  have hcomp : vwSet.Completion [] vwStore = some { vwSet with isCompleted := true } := by
    rw [SlideSet.Completion, if_neg (by decide), hrun]
    rfl
  refine ⟨hcomp, ?_⟩
  have h := Completion_visibility_filter vwSet [] vwStore
    { vwSet with isCompleted := true } "10000000000003"
    ⟨privMeta, .list [.sym symBlock]⟩ (by constructor <;> decide)
    (by rfl) (by decide) (by decide) hcomp
  exact h

end ZPres

namespace ZPres

/-- Slide sets reachable through the constructors and the two appending
operations (the only ways `slideset.go` populates a set). -/
inductive Built : SlideSet → Prop where
  | base (zid : ZettelID) (m : Meta) : Built (newSlideSetMeta zid m)
  | add (s : SlideSet) (zid : ZettelID) (zst : ZStore) :
      Built s → Built (s.AddSlide zid zst)
  | addl (s : SlideSet) (zid : ZettelID) (m : Meta) (c : Sx) :
      Built s → Built (s.AdditionalSlide zid m c)

/-- Bookkeeping invariant of built slide sets: sequence pointers are in
range, `setSlide` maps each identifier to an in-range slide carrying
that identifier, and every sequence identifier is a `setSlide` key. -/
def KeyInv (s : SlideSet) : Prop :=
  (∀ i ∈ s.seqSlide, i < s.slides.length) ∧
  (∀ z i, alookup s.setSlide z = some i →
    i < s.slides.length ∧ (s.slideAt i).zid = z) ∧
  (∀ z ∈ s.slideZids, (alookup s.setSlide z).isSome = true)

theorem alookup_ainsert_isSome {β : Type} (m : List (String × β)) (k z : String)
    (v : β) (h : (alookup m z).isSome = true) :
    (alookup (ainsert m k v) z).isSome = true := by
  by_cases hz : z = k
  · subst hz
    rw [alookup_ainsert_self]
    rfl
  · rw [alookup_ainsert_ne _ _ _ _ hz]
    exact h

theorem KeyInv_AdditionalSlide (s : SlideSet) (zid : ZettelID) (m : Meta) (c : Sx)
    (hinv : KeyInv s) : KeyInv (s.AdditionalSlide zid m c) := by
  obtain ⟨h1, h2, h3⟩ := hinv
  have hAt : ∀ i, i < s.slides.length →
      (s.AdditionalSlide zid m c).slideAt i = s.slideAt i := by
    intro i hi
    simp only [SlideSet.AdditionalSlide, SlideSet.slideAt]
    rw [List.getD_eq_getElem?_getD, List.getD_eq_getElem?_getD,
      List.getElem?_append_left hi]
  have hNew : (s.AdditionalSlide zid m c).slideAt s.slides.length = newSlide zid m c := by
    simp only [SlideSet.AdditionalSlide, SlideSet.slideAt]
    rw [List.getD_eq_getElem?_getD, List.getElem?_append_right (le_refl _)]
    simp
  have hlen : (s.AdditionalSlide zid m c).slides.length = s.slides.length + 1 := by
    simp [SlideSet.AdditionalSlide]
  refine ⟨?_, ?_, ?_⟩
  · intro i hi
    rw [hlen]
    rcases List.mem_append.mp hi with hm | hm
    · have := h1 i hm
      omega
    · rcases List.mem_singleton.mp hm with rfl
      omega
  · intro z i hz
    by_cases hzz : z = zid
    · subst hzz
      rw [show (s.AdditionalSlide z m c).setSlide = ainsert s.setSlide z s.slides.length
        from rfl, alookup_ainsert_self] at hz
      cases hz
      rw [hlen, hNew, newSlide]
      exact ⟨by omega, rfl⟩
    · rw [show (s.AdditionalSlide zid m c).setSlide = ainsert s.setSlide zid s.slides.length
        from rfl, alookup_ainsert_ne _ _ _ _ hzz] at hz
      obtain ⟨hlt, hat⟩ := h2 z i hz
      rw [hlen, hAt i hlt]
      exact ⟨by omega, hat⟩
  · intro z hz
    rw [slideZids_AdditionalSlide _ _ _ _ h1] at hz
    rw [show (s.AdditionalSlide zid m c).setSlide = ainsert s.setSlide zid s.slides.length
      from rfl]
    rcases List.mem_append.mp hz with hm | hm
    · exact alookup_ainsert_isSome _ _ _ _ (h3 z hm)
    · rcases List.mem_singleton.mp hm with rfl
      rw [alookup_ainsert_self]
      rfl

theorem KeyInv_Built (s : SlideSet) (hb : Built s) : KeyInv s := by
  induction hb with
  | base zid m =>
    refine ⟨?_, ?_, ?_⟩
    · intro i hi
      simp [newSlideSetMeta] at hi
    · intro z i hz
      simp [newSlideSetMeta, alookup] at hz
    · intro z hz
      simp [newSlideSetMeta, SlideSet.slideZids] at hz
  | add s zid zst hb ih =>
    obtain ⟨h1, h2, h3⟩ := ih
    rw [SlideSet.AddSlide]
    rcases hlook : alookup s.setSlide zid with _ | idx
    · rcases hfetch : alookup zst zid with _ | ztl
      · exact ⟨h1, h2, h3⟩
      · exact KeyInv_AdditionalSlide s zid ztl.meta ztl.content ⟨h1, h2, h3⟩
    · obtain ⟨hidx, hat⟩ := h2 zid idx hlook
      refine ⟨?_, h2, ?_⟩
      · intro i hi
        rcases List.mem_append.mp hi with hm | hm
        · exact h1 i hm
        · rcases List.mem_singleton.mp hm with rfl
          exact hidx
      · intro z hz
        rw [SlideSet.slideZids, List.map_append] at hz
        rcases List.mem_append.mp hz with hm | hm
        · exact h3 z hm
        · simp only [List.map_cons, List.map_nil, List.mem_singleton] at hm
          subst hm
          show (alookup s.setSlide ((s.slideAt idx)).zid).isSome = true
          rw [hat, hlook]
          rfl
  | addl s zid m c hb ih =>
    exact KeyInv_AdditionalSlide s zid m c ih

end ZPres

namespace ZPres

/-- The worklist invariant behind C9: every stacked identifier is a
`setSlide` key. -/
def StackInv (env : CollectEnv) : Prop :=
  ∀ z ∈ env.stack, (alookup env.s.setSlide z).isSome = true

theorem StackInv_visitZettel (zetStore : ZStore) (env : CollectEnv) (z : ZettelID)
    (hinv : StackInv env) : StackInv (env.visitZettel zetStore z) := by
  rcases hfetch : alookup zetStore z with _ | ztl
  · rw [CollectEnv.visitZettel]
    simp only [hfetch]
    split
    · exact hinv
    · exact hinv
  · rw [CollectEnv.visitZettel]
    simp only [hfetch]
    split
    · exact hinv
    · split
      · exact hinv
      · intro w hw
        rcases List.mem_cons.mp hw with rfl | hmem
        · show (alookup (ainsert env.s.setSlide w env.s.slides.length) w).isSome = true
          rw [alookup_ainsert_self]
          rfl
        · show (alookup (ainsert env.s.setSlide z env.s.slides.length) w).isSome = true
          exact alookup_ainsert_isSome _ _ _ _ (hinv w hmem)

theorem StackInv_visitImage (rawStore : IStore) (env : CollectEnv) (z : ZettelID)
    (syn : String) (hinv : StackInv env) : StackInv (env.visitImage rawStore z syn) := by
  rw [CollectEnv.visitImage]
  split
  · exact hinv
  · split
    · exact hinv
    · exact hinv

theorem StackInv_elemStep (rawStore : IStore) (zetStore : ZStore) (sname : String)
    (t : List Sx) (recres env : CollectEnv)
    (hrec : StackInv env → StackInv recres) (hinv : StackInv env) :
    StackInv (elemStep rawStore zetStore sname t recres env) := by
  rw [elemStep]
  split_ifs
  · exact hinv
  · exact hinv
  · exact hinv
  · split
    · exact StackInv_visitZettel zetStore env _ hinv
    · exact hinv
  · split
    · exact StackInv_visitImage rawStore env _ _ hinv
    · exact hinv
  · exact hrec hinv

theorem StackInv_visitElems (rawStore : IStore) (zetStore : ZStore)
    (l : List Sx) (env : CollectEnv) (hinv : StackInv env) :
    StackInv (visitElems rawStore zetStore l env) := by
  induction l, env using visitElems.induct rawStore zetStore
  case case1 => rwa [visitElems]
  case case2 env iht ihrest =>
    rw [visitElems]
    exact ihrest (StackInv_elemStep rawStore zetStore _ _ _ env
      (fun _ => iht hinv) hinv)
  all_goals rw [visitElems]
  all_goals rename_i ih
  all_goals exact ih hinv

theorem StackInv_visitContent (rawStore : IStore) (zetStore : ZStore)
    (content : Sx) (env : CollectEnv) (hinv : StackInv env) :
    StackInv (visitContent rawStore zetStore content env) := by
  cases content with
  | sym s => exact hinv
  | str s => exact hinv
  | num n => exact hinv
  | list elems => exact StackInv_visitElems rawStore zetStore _ env hinv

theorem completionLoop_no_panic (rawStore : IStore) (zetStore : ZStore)
    (env : CollectEnv) :
    StackInv env → completionLoop rawStore zetStore env ≠ none := by
  induction env using completionLoop.induct rawStore zetStore with
  | case1 x hstk =>
    intro hinv h
    rw [completionLoop.eq_def, hstk] at h
    cases h
  | case2 x zid0 rest hstk env1 hmem ih =>
    intro hinv h
    rw [completionLoop.eq_def, hstk] at h
    simp only [] at h
    rw [if_pos hmem] at h
    refine ih ?_ h
    intro z hz
    exact hinv z (by rw [hstk]; exact List.mem_cons_of_mem _ hz)
  | case3 x rest env1 hstk hmem ih =>
    intro hinv h
    rw [completionLoop.eq_def, hstk] at h
    simp only [] at h
    rw [if_neg hmem] at h
    simp only [if_true] at h
    refine ih ?_ h
    intro z hz
    exact hinv z (by rw [hstk]; exact List.mem_cons_of_mem _ hz)
  | case4 x zid0 rest hstk hmem hzid hidx =>
    intro hinv h
    have := hinv zid0 (by rw [hstk]; exact List.mem_cons_self _ _)
    rw [show x.s.getSlideIdx zid0 = alookup x.s.setSlide zid0 from rfl] at hidx
    rw [hidx] at this
    cases this
  | case5 x zid0 rest hstk env1 hmem hzid idx hidx env2 env3 ih =>
    intro hinv h
    rw [completionLoop.eq_def, hstk] at h
    simp only [] at h
    rw [if_neg hmem, if_neg hzid, hidx] at h
    refine ih ?_ h
    refine StackInv_visitContent rawStore zetStore _ _ ?_
    intro z hz
    exact hinv z (by rw [hstk]; exact List.mem_cons_of_mem _ hz)

/-- C9: slide-index invariant.  Both appending operations leave the
appended identifier mapped (in `setSlide`) to the very slide pointer
they appended to `seqSlide`; consequently, on any slide set populated
only through `newSlideSetMeta`, `AddSlide` and `AdditionalSlide`, every
identifier popped by `Completion`'s worklist loop is found by
`GetSlide`, and the loop's panic (modelled as `none`) is unreachable. -/
theorem seqSlide_setSlide_invariant :
    (∀ (s : SlideSet) (zid : ZettelID) (zst : ZStore),
      (s.AddSlide zid zst).seqSlide ≠ s.seqSlide →
      ∃ i, (s.AddSlide zid zst).seqSlide = s.seqSlide ++ [i] ∧
        alookup (s.AddSlide zid zst).setSlide zid = some i) ∧
    (∀ (s : SlideSet) (zid : ZettelID) (m : Meta) (c : Sx),
      (s.AdditionalSlide zid m c).seqSlide = s.seqSlide ++ [s.slides.length] ∧
      alookup (s.AdditionalSlide zid m c).setSlide zid = some s.slides.length) ∧
    (∀ (s : SlideSet) (rawStore : IStore) (zetStore : ZStore),
      Built s → s.Completion rawStore zetStore ≠ none) := by
  refine ⟨?_, ?_, ?_⟩
  · intro s zid zst hne
    rw [SlideSet.AddSlide] at hne ⊢
    rcases hlook : alookup s.setSlide zid with _ | idx
    · rw [hlook] at hne
      rcases hfetch : alookup zst zid with _ | ztl
      · rw [hfetch] at hne
        exact absurd rfl hne
      · exact ⟨s.slides.length, rfl, alookup_ainsert_self _ _ _⟩
    · exact ⟨idx, rfl, hlook⟩
  · intro s zid m c
    exact ⟨rfl, alookup_ainsert_self _ _ _⟩
  · intro s rawStore zetStore hb
    rw [SlideSet.Completion]
    by_cases hc : s.isCompleted
    · rw [if_pos hc]
      intro h
      cases h
    · rw [if_neg hc]
      have hinv : StackInv (initCollection s) := by
        intro z hz
        exact (KeyInv_Built s hb).2.2 z hz
      have hloop := completionLoop_no_panic rawStore zetStore (initCollection s) hinv
      rcases hrun : completionRun rawStore zetStore s with _ | env
      · exact absurd hrun hloop
      · intro h
        exact Option.noConfusion h

/-- Witness for C9: a built slide set completes without panic, and a
concrete `AdditionalSlide` call maps the appended identifier to the
appended pointer. -/
theorem seqSlide_setSlide_invariant_witness :
    vwSet.Completion [] vwStore ≠ none ∧
    (vwSet.AdditionalSlide "10000000000009" [] (.list [])).seqSlide =
      vwSet.seqSlide ++ [vwSet.slides.length] ∧
    alookup (vwSet.AdditionalSlide "10000000000009" [] (.list [])).setSlide
      "10000000000009" = some vwSet.slides.length := by
  refine ⟨?_, ?_⟩
  · exact seqSlide_setSlide_invariant.2.2 vwSet [] vwStore
      (Built.add _ _ _ (Built.base "" []))
  · exact seqSlide_setSlide_invariant.2.1 vwSet "10000000000009" [] (.list [])

end ZPres
